import Mathlib

/-!
# kafka-kit: the in-memory ZooKeeper mock (`kafkazk/zookeeper_mocks.go`)

A shallow embedding of the mock's node tree and of its generic tree operations
(`Exists`, `Set`, `Get`, `Delete`, `Children`, `NextInt`), of its canned cluster queries
(`GetTopics`, `GetBrokerIDs`, `GetBrokerMetrics`, `GetAllBrokerMeta`) and of the metric name
rewriting of `cmd/autothrottle/app_metrics.go`, followed by theorems about them.

Modelling conventions.

* A Go `string` is a Lean `String`; `[]byte` is a `List UInt8` (a `nil` slice and an empty
  slice are both `[]`), and the conversion `[]byte(d)` is the UTF-8 encoding of `d`.
* A Go `map[string]*MockZnode` is an association list read by first match
  (`mapGet`); `m[k] = v` is `mapSet`, `delete(m, k)` is `mapDelete`, and ranging over the
  keys is `mapKeys`.  The mock never stores a `nil` pointer in a map and never shares a
  node between two maps, so a pointer to a node is modelled by the node itself and a
  mutation through a pointer by writing the updated node back along the walked path.
* `int32` is `Int`, with the wrap-around of `++` made explicit by `wrapInt32`.
* A method that mutates the receiver returns the new store next to its Go results.
-/

namespace Kafkazk

/-! ## Go library functions used by the mock -/

/-- The function `strings.Trim(s, cutset)` for a one-character cutset: `s` without its leading
and trailing occurrences of that character. -/
def Trim (s : String) (cutset : Char) : String :=
  String.mk ((s.data.dropWhile (fun c => c == cutset)).rdropWhile (fun c => c == cutset))

/-- Splitting a character list at every occurrence of `sep`.  There is always a first piece,
so the result is the first piece together with the list of the further pieces. -/
def splitChars (sep : Char) : List Char → List Char × List (List Char)
  | [] => ([], [])
  | c :: cs =>
    let r := splitChars sep cs
    if c = sep then ([], r.1 :: r.2) else (c :: r.1, r.2)

/-- The function `strings.Split(s, sep)` for a one-character separator.  The Go result is a slice
of length at least one; it is represented by its element `[0]` and the slice `[1:]`. -/
def Split (s : String) (sep : Char) : String × List String :=
  let r := splitChars sep s.data
  (String.mk r.1, r.2.map String.mk)

/-- The conversion `[]byte(d)`. -/
def toBytes (d : String) : List UInt8 := d.toUTF8.data.toList

/-- The value of an `int32` after an arithmetic operation whose exact result is `x`. -/
def wrapInt32 (x : Int) : Int := (x + 2147483648) % 4294967296 - 2147483648

/-- The range of `int32`. -/
def isInt32 (x : Int) : Prop := -2147483648 ≤ x ∧ x ≤ 2147483647

/-! ## Go maps keyed by strings -/

/-- The lookup `m[k]`: `none` when the key is absent. -/
def mapGet {α : Type} : List (String × α) → String → Option α
  | [], _ => none
  | (k0, v) :: m, k => if k0 = k then some v else mapGet m k

/-- The assignment `m[k] = v`. -/
def mapSet {α : Type} : List (String × α) → String → α → List (String × α)
  | [], k, v => [(k, v)]
  | (k0, v0) :: m, k, v => if k0 = k then (k, v) :: m else (k0, v0) :: mapSet m k v

/-- The statement `delete(m, k)`. -/
def mapDelete {α : Type} (m : List (String × α)) (k : String) : List (String × α) :=
  m.filter (fun e => !decide (e.1 = k))

/-- The keys of the map, each once (in Go the order of `range` over a map is unspecified). -/
def mapKeys {α : Type} (m : List (String × α)) : List String :=
  (m.map Prod.fst).dedup

/-! ## The data model -/

/-- The only error value of the mock. -/
inductive Error where
  | errNotExist
  deriving DecidableEq, Repr

/-- A mock znode: `value []byte`, `version int32`, `children map[string]*MockZnode`. -/
inductive MockZnode where
  | mk (value : List UInt8) (version : Int) (children : List (String × MockZnode))

/-- Field `value`. -/
def MockZnode.value : MockZnode → List UInt8
  | .mk v _ _ => v

/-- Field `version`. -/
def MockZnode.version : MockZnode → Int
  | .mk _ n _ => n

/-- Field `children`. -/
def MockZnode.children : MockZnode → List (String × MockZnode)
  | .mk _ _ c => c

/-- The literal `&MockZnode{children: map[string]*MockZnode{}}`: nil value, version 0. -/
def MockZnode.new : MockZnode := .mk [] 0 []

/-- The mock: `data map[string]*MockZnode`. -/
structure Mock where
  data : List (String × MockZnode)

/-- The store built by `NewZooKeeperMock`. -/
def NewZooKeeperMock : Mock := ⟨[]⟩

/-- The first two lines of every tree method:
`pathTrimmed := strings.Trim(p, "/")` and `paths := strings.Split(pathTrimmed, "/")`. -/
def splitPath (p : String) : String × List String :=
  let pathTrimmed := Trim p '/'
  Split pathTrimmed '/'

/-- The whole slice `paths` of a path string. -/
def paths (p : String) : List String := (splitPath p).1 :: (splitPath p).2

/-! ## The tree methods -/

/-- The loop of `Set` over `paths[1:]` followed by the write to the node reached; the result
is the node `current` after the mutations made below it. -/
def Mock.Set.loop (d : String) (current : MockZnode) : List String → MockZnode
  | [] => .mk (toBytes d) (wrapInt32 (current.version + 1)) current.children
  | path :: rest =>
    let next :=
      match mapGet current.children path with
      | some n => n
      | none => MockZnode.new
    .mk current.value current.version
      (mapSet current.children path (Mock.Set.loop d next rest))

/-- The method `Set`: walks the path creating every missing node, stores the value in the node
reached and increments its version; always returns a nil error. -/
def Mock.Set (zk : Mock) (p d : String) : Mock × Option Error :=
  let paths := splitPath p
  let current :=
    match mapGet zk.data paths.1 with
    | some n => n
    | none => MockZnode.new
  (⟨mapSet zk.data paths.1 (Mock.Set.loop d current paths.2)⟩, none)

/-- The method `Create`, which calls `Set`. -/
def Mock.Create (zk : Mock) (p d : String) : Mock × Option Error :=
  zk.Set p d

/-- The loop of `Get` over `paths[1:]` and the final return. -/
def Mock.Get.loop (current : MockZnode) : List String → List UInt8 × Option Error
  | [] => (current.value, none)
  | path :: rest =>
    match mapGet current.children path with
    | none => ([], some Error.errNotExist)
    | some next => Mock.Get.loop next rest

/-- The method `Get`. -/
def Mock.Get (zk : Mock) (p : String) : List UInt8 × Option Error :=
  let paths := splitPath p
  match mapGet zk.data paths.1 with
  | none => ([], some Error.errNotExist)
  | some current => Mock.Get.loop current paths.2

/-- The method `Exists`: false exactly when `Get` returns `errNotExist`; the error is nil. -/
def Mock.Exists (zk : Mock) (p : String) : Bool × Option Error :=
  let err := (zk.Get p).2
  if err = some Error.errNotExist then (false, none) else (true, none)

/-- The loop of `Delete` over `paths[1:]`; `n` is `len(paths)` and `i` the loop index.  The
result is the node `current` after the mutation made below it, and the error returned. -/
def Mock.Delete.loop (n : Int) (i : Int) (current : MockZnode) :
    List String → MockZnode × Option Error
  | [] => (current, none)
  | path :: rest =>
    match mapGet current.children path with
    | none => (current, some Error.errNotExist)
    | some next =>
      if i = n - 2 then
        (.mk current.value current.version (mapDelete current.children path), none)
      else
        let r := Mock.Delete.loop n (i + 1) next rest
        (.mk current.value current.version (mapSet current.children path r.1), r.2)

/-- The method `Delete`. -/
def Mock.Delete (zk : Mock) (p : String) : Mock × Option Error :=
  let paths := splitPath p
  match mapGet zk.data paths.1 with
  | none => (zk, some Error.errNotExist)
  | some current =>
    let r := Mock.Delete.loop (1 + paths.2.length) 0 current paths.2
    (⟨mapSet zk.data paths.1 r.1⟩, r.2)

/-- The loop of `Children` over `paths[1:]`; `n` is `len(paths)` and `i` the loop index. -/
def Mock.Children.loop (n : Int) (i : Int) (current : MockZnode) :
    List String → List String × Option Error
  | [] => ([], some Error.errNotExist)
  | path :: rest =>
    match mapGet current.children path with
    | none => ([], some Error.errNotExist)
    | some next =>
      if i = n - 2 then
        ([] ++ mapKeys next.children, none)
      else
        Mock.Children.loop n (i + 1) next rest

/-- The method `Children`. -/
def Mock.Children (zk : Mock) (p : String) : List String × Option Error :=
  let paths := splitPath p
  match mapGet zk.data paths.1 with
  | none => ([], some Error.errNotExist)
  | some current => Mock.Children.loop (1 + paths.2.length) 0 current paths.2

/-- The loop of `NextInt` over `paths[1:]` followed by the read and increment of the version;
the result is the node `current` after the mutation, the integer and the error returned. -/
def Mock.NextInt.loop (current : MockZnode) : List String → MockZnode × Int × Option Error
  | [] =>
    let v := current.version
    (.mk current.value (wrapInt32 (current.version + 1)) current.children, v, none)
  | path :: rest =>
    match mapGet current.children path with
    | none => (current, 0, some Error.errNotExist)
    | some next =>
      let r := Mock.NextInt.loop next rest
      (.mk current.value current.version (mapSet current.children path r.1), r.2)

/-- The method `NextInt`. -/
def Mock.NextInt (zk : Mock) (p : String) : Mock × Int × Option Error :=
  let paths := splitPath p
  match mapGet zk.data paths.1 with
  | none => (zk, 0, some Error.errNotExist)
  | some current =>
    let r := Mock.NextInt.loop current paths.2
    (⟨mapSet zk.data paths.1 r.1⟩, r.2)

/-! ## Observers used to state the properties -/

/-- The node reached from `current` by following the child names `segs`. -/
def MockZnode.descend (current : MockZnode) : List String → Option MockZnode
  | [] => some current
  | path :: rest =>
    match mapGet current.children path with
    | none => none
    | some next => next.descend rest

/-- The top-level map `zk.data` seen as the children of a node above all paths. -/
def Mock.root (zk : Mock) : MockZnode := .mk [] 0 zk.data

/-- The node addressed by the path string `p`, when there is one. -/
def Mock.node (zk : Mock) (p : String) : Option MockZnode :=
  match mapGet zk.data (splitPath p).1 with
  | none => none
  | some current => current.descend (splitPath p).2

/-- The version of the node addressed by `p`. -/
def Mock.versionOf (zk : Mock) (p : String) : Option Int :=
  (zk.node p).map MockZnode.version

/-- Successive calls `Set(p, v1)`, ..., `Set(p, vn)` for the values of the list. -/
def Mock.setAll (zk : Mock) (p : String) (vs : List String) : Mock :=
  vs.foldl (fun z v => (z.Set p v).1) zk

/-- What a node holds apart from its children: its value and its version. -/
def MockZnode.payload (n : MockZnode) : List UInt8 × Int := (n.value, n.version)

/-- The path string has an empty intermediate segment: an empty element of `paths` that is
neither the first nor the last one, as in `/a//b`. -/
def hasEmptyIntermediateSegment (p : String) : Prop :=
  "" ∈ (splitPath p).2.dropLast

instance (p : String) : Decidable (hasEmptyIntermediateSegment p) := by
  unfold hasEmptyIntermediateSegment
  infer_instance

/-! ## The other methods of the mock used below -/

/-- The method `CreateSequential`: it discards both arguments and returns a nil error. -/
def Mock.CreateSequential (zk : Mock) (a b : String) : Mock × Option Error :=
  let _unused := (a, b)
  (zk, none)

/-- A call of one of the methods that take the store as a mutable receiver. -/
inductive Call where
  | Set (p d : String)
  | Create (p d : String)
  | CreateSequential (a b : String)
  | Delete (p : String)
  | NextInt (p : String)

/-- The store after one call. -/
def Mock.call (zk : Mock) : Call → Mock
  | .Set p d => (zk.Set p d).1
  | .Create p d => (zk.Create p d).1
  | .CreateSequential a b => (zk.CreateSequential a b).1
  | .Delete p => (zk.Delete p).1
  | .NextInt p => (zk.NextInt p).1

/-- The store after a sequence of calls. -/
def Mock.run (zk : Mock) (calls : List Call) : Mock :=
  calls.foldl Mock.call zk

/-- The inner loop of `GetTopics`: the topics of `t` matched by one pattern are entered in
the map `match`. -/
def Mock.GetTopics.inner (topicRe : String → Bool) (t : List String)
    (matched : List (String × Bool)) : List (String × Bool) :=
  t.foldl (fun m topic => if topicRe topic then mapSet m topic true else m) matched

/-- The method `GetTopics`.  A `*regexp.Regexp` is represented by its `MatchString`
predicate on strings. -/
def Mock.GetTopics (_zk : Mock) (ts : List (String → Bool)) : List String × Option Error :=
  let t := ["test_topic", "test_topic2"]
  let matched := ts.foldl (fun m topicRe => Mock.GetTopics.inner topicRe t m) []
  ([] ++ mapKeys matched, none)

/-! ## Broker metadata -/

/-- The lookup `m[k]` in a Go map with keys of any type with decidable equality. -/
def kvGet {κ α : Type} [DecidableEq κ] : List (κ × α) → κ → Option α
  | [], _ => none
  | (k0, v) :: m, k => if k0 = k then some v else kvGet m k

/-- The assignment `m[k] = v` in such a map. -/
def kvSet {κ α : Type} [DecidableEq κ] : List (κ × α) → κ → α → List (κ × α)
  | [], k, v => [(k, v)]
  | (k0, v0) :: m, k, v => if k0 = k then (k, v) :: m else (k0, v0) :: kvSet m k v

/-- The keys of such a map, each once. -/
def kvKeys {κ α : Type} [DecidableEq κ] (m : List (κ × α)) : List κ :=
  (m.map Prod.fst).dedup

/-- Modelled from the spec: the type `BrokerMeta` is declared outside the given sources.  Of
its per-broker attributes the mock uses the rack identifier and the free storage; a
`float64` is represented by the rational number it stands for (the mock only copies the
constants it writes). -/
structure BrokerMeta where
  Rack : String
  StorageFree : ℚ
  deriving DecidableEq

/-- Modelled from the spec: the type `BrokerMetrics` is declared outside the given sources; a
per-broker telemetry snapshot, of which the mock uses the free storage. -/
structure BrokerMetrics where
  StorageFree : ℚ
  deriving DecidableEq

/-- The method `GetBrokerIDs`. -/
def Mock.GetBrokerIDs (_zk : Mock) : List Int × Option Error :=
  ([1001, 1002, 1003, 1004, 1005, 1007], none)

/-- The method `GetBrokerMetrics`. -/
def Mock.GetBrokerMetrics (_zk : Mock) : List (Int × BrokerMetrics) × Option Error :=
  let bm : List (Int × BrokerMetrics) :=
    [(1001, ⟨2000⟩), (1002, ⟨4000⟩), (1003, ⟨6000⟩), (1004, ⟨8000⟩), (1005, ⟨10000⟩),
     (1007, ⟨12000⟩)]
  (bm, none)

/-- One iteration of the loop of `GetAllBrokerMeta`:
`b[bid].StorageFree = m[bid].StorageFree`.  The result is `none` when the statement
dereferences a nil pointer, that is when `bid` is missing from one of the maps. -/
def Mock.GetAllBrokerMeta.body (m : List (Int × BrokerMetrics))
    (b : Option (List (Int × BrokerMeta))) (bid : Int) : Option (List (Int × BrokerMeta)) :=
  match b with
  | none => none
  | some b =>
    match kvGet m bid, kvGet b bid with
    | some metrics, some bm => some (kvSet b bid { bm with StorageFree := metrics.StorageFree })
    | _, _ => none

/-- The method `GetAllBrokerMeta`; the result is `none` when the call panics, and the nil
slice of errors it returns is the empty list. -/
def Mock.GetAllBrokerMeta (zk : Mock) (withMetrics : Bool) :
    Option (List (Int × BrokerMeta) × List Error) :=
  let b : List (Int × BrokerMeta) :=
    [(1001, ⟨"a", 0⟩), (1002, ⟨"b", 0⟩), (1003, ⟨"", 0⟩), (1004, ⟨"a", 0⟩), (1005, ⟨"b", 0⟩),
     (1007, ⟨"", 0⟩)]
  if withMetrics then
    let m := zk.GetBrokerMetrics.1
    match (kvKeys b).foldl (Mock.GetAllBrokerMeta.body m) (some b) with
    | none => none
    | some b1 => some (b1, [])
  else
    some (b, [])

/-! ## The metric name rewriting of `cmd/autothrottle/app_metrics.go` -/

/-- The constant `MetricsNamespace`. -/
def Autothrottle.MetricsNamespace : String := "autothrottle."

/-- Cutting a character list at the first occurrence of `sep`: what stands before it and
what stands after it, or `none` when `sep` does not occur. -/
def Autothrottle.cut (sep : Char) : List Char → Option (List Char × List Char)
  | [] => none
  | c :: cs =>
    if c = sep then some ([], cs)
    else
      match Autothrottle.cut sep cs with
      | none => none
      | some (a, b) => some (c :: a, b)

/-- The pieces of `strings.SplitN` on a character list: at most `n` pieces, the last one
being the remainder that is not split. -/
def Autothrottle.splitNChars (sep : Char) : Nat → List Char → List (List Char)
  | 0, _ => []
  | n + 1, cs =>
    if n = 0 then [cs]
    else
      match Autothrottle.cut sep cs with
      | none => [cs]
      | some (a, b) => a :: Autothrottle.splitNChars sep n b

/-- The function `strings.SplitN(s, sep, n)` for a one-character separator and `n ≥ 0`. -/
def Autothrottle.SplitN (s : String) (sep : Char) (n : Nat) : List String :=
  (Autothrottle.splitNChars sep n s.data).map String.mk

/-- The function `strings.Join(elems, sep)`. -/
def Autothrottle.Join (elems : List String) (sep : String) : String :=
  sep.intercalate elems

/-- The formatting of an `int` by the verb `%d`: its decimal digits, after a minus sign
when it is negative. -/
def Autothrottle.formatInt : Int → String
  | Int.ofNat m => Nat.repr m
  | Int.negSucc m => "-" ++ Nat.repr (m + 1)

/-- The name under which `initAppMetrics` registers the gauge of a broker and a role:
`fmt.Sprintf("broker.%d.%s.%s", ID, role, "replication.throttled.rate")`. -/
def Autothrottle.metricName (ID : Int) (role : String) : String :=
  "broker." ++ Autothrottle.formatInt ID ++ "." ++ role ++ "." ++ "replication.throttled.rate"

/-- The closure `transformFn` of `initAppMetrics`.  The result is `none` when the index
expression `parts[1]` or the slice expression `parts[2:]` is out of range. -/
def Autothrottle.transformFn (name : String) (tags : List String) :
    Option (String × List String) :=
  let parts := Autothrottle.SplitN name '.' 6
  match parts[1]? with
  | none => none
  | some brokerID =>
    if parts.length < 2 then none
    else
      let finalName :=
        Autothrottle.MetricsNamespace ++ Autothrottle.Join (parts.drop 2) "."
      let tags := tags ++ ["broker_id:" ++ brokerID]
      some (finalName, tags)

/-! ## Lemmas on maps -/

theorem mapGet_mapSet_self {α : Type} (m : List (String × α)) (k : String) (v : α) :
    mapGet (mapSet m k v) k = some v := by
  induction m with
  | nil => simp [mapSet, mapGet]
  | cons e m ih =>
    obtain ⟨k0, v0⟩ := e
    by_cases h : k0 = k
    · simp [mapSet, mapGet, h]
    · simp [mapSet, mapGet, h, ih]

theorem mapGet_mapSet_ne {α : Type} (m : List (String × α)) (k k1 : String) (v : α)
    (h : k ≠ k1) : mapGet (mapSet m k v) k1 = mapGet m k1 := by
  induction m with
  | nil => simp [mapSet, mapGet, h]
  | cons e m ih =>
    obtain ⟨k0, v0⟩ := e
    by_cases h0 : k0 = k
    · subst h0
      simp [mapSet, mapGet, h]
    · simp only [mapSet, h0, if_false, mapGet, ih]

theorem mapSet_of_mapGet {α : Type} (m : List (String × α)) (k : String) (v : α)
    (h : mapGet m k = some v) : mapSet m k v = m := by
  induction m with
  | nil => simp [mapGet] at h
  | cons e m ih =>
    obtain ⟨k0, v0⟩ := e
    by_cases h0 : k0 = k
    · simp [mapGet, h0] at h
      simp [mapSet, h0, h]
    · simp [mapGet, h0] at h
      simp [mapSet, h0, ih h]

theorem mapGet_mapDelete_self {α : Type} (m : List (String × α)) (k : String) :
    mapGet (mapDelete m k) k = none := by
  induction m with
  | nil => simp [mapDelete, mapGet]
  | cons e m ih =>
    obtain ⟨k0, v0⟩ := e
    by_cases h0 : k0 = k
    · simpa [mapDelete, List.filter, h0] using ih
    · simp only [mapDelete] at ih
      simp [mapDelete, List.filter, h0, mapGet, ih]

theorem mapGet_mapDelete_ne {α : Type} (m : List (String × α)) (k k1 : String)
    (h : k ≠ k1) : mapGet (mapDelete m k) k1 = mapGet m k1 := by
  induction m with
  | nil => simp [mapDelete, mapGet]
  | cons e m ih =>
    obtain ⟨k0, v0⟩ := e
    simp only [mapDelete] at ih
    by_cases h0 : k0 = k
    · subst h0
      simp [mapDelete, List.filter, mapGet, h, ih]
    · simp [mapDelete, List.filter, h0, mapGet, ih]

theorem mem_mapKeys {α : Type} (m : List (String × α)) (k : String) :
    k ∈ mapKeys m ↔ (mapGet m k).isSome = true := by
  induction m with
  | nil => simp [mapKeys, mapGet]
  | cons e m ih =>
    obtain ⟨k0, v0⟩ := e
    simp only [mapKeys, List.mem_dedup, List.map_cons, List.mem_cons] at ih ⊢
    by_cases h0 : k0 = k
    · simp [mapGet, h0]
    · have h1 : ¬ k = k0 := fun h => h0 h.symm
      simp [mapGet, h0, h1, ih]

theorem nodup_mapKeys {α : Type} (m : List (String × α)) : (mapKeys m).Nodup :=
  List.nodup_dedup _

/-! ## Lemmas on nodes: the walk of `Set` -/

@[simp] theorem MockZnode.value_mk (v : List UInt8) (n : Int) (c : List (String × MockZnode)) :
    (MockZnode.mk v n c).value = v := rfl

@[simp] theorem MockZnode.version_mk (v : List UInt8) (n : Int)
    (c : List (String × MockZnode)) : (MockZnode.mk v n c).version = n := rfl

@[simp] theorem MockZnode.children_mk (v : List UInt8) (n : Int)
    (c : List (String × MockZnode)) : (MockZnode.mk v n c).children = c := rfl

theorem MockZnode.eta (cur : MockZnode) :
    MockZnode.mk cur.value cur.version cur.children = cur := by
  cases cur; rfl

theorem MockZnode.descend_cons (cur : MockZnode) (s : String) (q : List String) :
    cur.descend (s :: q) =
      match mapGet cur.children s with
      | none => none
      | some next => next.descend q := rfl

theorem MockZnode.descend_new (q : List String) :
    (MockZnode.new.descend q).getD MockZnode.new = MockZnode.new := by
  cases q with
  | nil => rfl
  | cons s q => simp [MockZnode.descend_cons, MockZnode.new, mapGet]

theorem Set_loop_cons (d : String) (cur : MockZnode) (s : String) (rest : List String) :
    Mock.Set.loop d cur (s :: rest) =
      .mk cur.value cur.version
        (mapSet cur.children s
          (Mock.Set.loop d ((mapGet cur.children s).getD MockZnode.new) rest)) := by
  cases h : mapGet cur.children s <;> simp [Mock.Set.loop, h]

theorem descend_getD_cons (cur : MockZnode) (s : String) (q : List String) :
    (cur.descend (s :: q)).getD MockZnode.new =
      (((mapGet cur.children s).getD MockZnode.new).descend q).getD MockZnode.new := by
  cases h : mapGet cur.children s with
  | none => simp [MockZnode.descend_cons, h, MockZnode.descend_new]
  | some n => simp [MockZnode.descend_cons, h]

/-- After the walk of `Set`, the node at the end of the walked names holds the new value, the
incremented version and the children it had (a node that was missing counts as a new one). -/
theorem descend_Set_loop_target (d : String) (rest : List String) :
    ∀ cur : MockZnode, (Mock.Set.loop d cur rest).descend rest =
      some (.mk (toBytes d)
        (wrapInt32 (((cur.descend rest).getD MockZnode.new).version + 1))
        ((cur.descend rest).getD MockZnode.new).children) := by
  induction rest with
  | nil => intro cur; simp [Mock.Set.loop, MockZnode.descend]
  | cons s rest ih =>
    intro cur
    rw [Set_loop_cons, MockZnode.descend_cons, MockZnode.children_mk, mapGet_mapSet_self]
    simp only [ih, descend_getD_cons]

/-- After the walk of `Set`, a node strictly above the end of the walked names exists and
has the value and version it had (those of a new node when it was missing). -/
theorem descend_Set_loop_ancestor (d : String) (q r : List String) (hr : r ≠ []) :
    ∀ cur : MockZnode, ∃ n : MockZnode,
      (Mock.Set.loop d cur (q ++ r)).descend q = some n ∧
      n.value = ((cur.descend q).getD MockZnode.new).value ∧
      n.version = ((cur.descend q).getD MockZnode.new).version := by
  induction q with
  | nil =>
    intro cur
    cases r with
    | nil => exact absurd rfl hr
    | cons s r => exact ⟨_, rfl, by simp [Set_loop_cons, MockZnode.descend]⟩
  | cons s q ih =>
    intro cur
    obtain ⟨n, h1, h2, h3⟩ := ih ((mapGet cur.children s).getD MockZnode.new)
    refine ⟨n, ?_, ?_, ?_⟩
    · rw [List.cons_append, Set_loop_cons, MockZnode.descend_cons, MockZnode.children_mk,
        mapGet_mapSet_self]
      exact h1
    · rw [h2, descend_getD_cons]
    · rw [h3, descend_getD_cons]

/-- The walk of `Set` leaves every node off the walked names as it was. -/
theorem descend_Set_loop_other (d : String) (rest : List String) :
    ∀ (cur : MockZnode) (q : List String), ¬ q <+: rest → ¬ rest <+: q →
      (Mock.Set.loop d cur rest).descend q = cur.descend q := by
  induction rest with
  | nil => intro cur q _ h; exact absurd (List.nil_prefix) h
  | cons s rest ih =>
    intro cur q h1 h2
    cases q with
    | nil => exact absurd (List.nil_prefix) h1
    | cons t q =>
      rw [Set_loop_cons, MockZnode.descend_cons, MockZnode.descend_cons, MockZnode.children_mk]
      by_cases hst : s = t
      · subst hst
        rw [mapGet_mapSet_self]
        have h1q : ¬ q <+: rest := fun h => h1 ((List.prefix_cons_inj s).2 h)
        have h2q : ¬ rest <+: q := fun h => h2 ((List.prefix_cons_inj s).2 h)
        dsimp only
        rw [ih _ q h1q h2q]
        cases hg : mapGet cur.children s with
        | some n => simp
        | none =>
          cases q with
          | nil => exact absurd (List.nil_prefix) h1q
          | cons u q => simp [MockZnode.descend_cons, MockZnode.new, mapGet]
      · rw [mapGet_mapSet_ne _ _ _ _ hst]

/-! ## Lemmas on the store: the methods in terms of the node a path addresses -/

theorem Mock.node_eq_descend (zk : Mock) (p : String) :
    zk.node p = zk.root.descend (paths p) := rfl

theorem Mock.root_Set (zk : Mock) (p d : String) :
    (zk.Set p d).1.root = Mock.Set.loop d zk.root (paths p) := by
  rw [paths, Set_loop_cons]
  simp only [Mock.Set, Mock.root, MockZnode.children_mk, MockZnode.value_mk,
    MockZnode.version_mk]
  cases mapGet zk.data (splitPath p).1 <;> rfl

theorem Mock.Set_error (zk : Mock) (p d : String) : (zk.Set p d).2 = none := rfl

theorem Get_loop_eq (rest : List String) :
    ∀ cur : MockZnode, Mock.Get.loop cur rest =
      match cur.descend rest with
      | some n => (n.value, none)
      | none => ([], some Error.errNotExist) := by
  induction rest with
  | nil => intro cur; rfl
  | cons s rest ih =>
    intro cur
    rw [MockZnode.descend_cons]
    cases h : mapGet cur.children s with
    | none => simp [Mock.Get.loop, h]
    | some n => simp [Mock.Get.loop, h, ih]

theorem Mock.Get_eq (zk : Mock) (p : String) :
    zk.Get p =
      match zk.node p with
      | some n => (n.value, none)
      | none => ([], some Error.errNotExist) := by
  unfold Mock.Get Mock.node
  dsimp only
  cases h : mapGet zk.data (splitPath p).1 with
  | none => rfl
  | some cur => exact Get_loop_eq _ cur

theorem Mock.Exists_eq (zk : Mock) (p : String) :
    zk.Exists p = ((zk.node p).isSome, none) := by
  unfold Mock.Exists
  rw [Mock.Get_eq]
  cases zk.node p <;> simp

theorem Mock.node_eq_none_of_not_Exists (zk : Mock) (p : String)
    (h : (zk.Exists p).1 = false) : zk.node p = none := by
  rw [Mock.Exists_eq] at h
  cases hn : zk.node p with
  | none => rfl
  | some n => simp [hn] at h

theorem Mock.node_Set_self (zk : Mock) (p d : String) :
    (zk.Set p d).1.node p =
      some (.mk (toBytes d)
        (wrapInt32 (((zk.node p).getD MockZnode.new).version + 1))
        ((zk.node p).getD MockZnode.new).children) := by
  rw [Mock.node_eq_descend, Mock.root_Set, descend_Set_loop_target, Mock.node_eq_descend]

theorem wrapInt32_of_isInt32 (x : Int) (h : isInt32 x) : wrapInt32 x = x := by
  unfold isInt32 at h
  unfold wrapInt32
  omega

/-! ## Lemmas on the loops of `Delete`, `Children` and `NextInt` -/

theorem Delete_loop_error (n : Int) (rest : List String) :
    ∀ (i : Int) (cur : MockZnode), i + rest.length = n - 1 → cur.descend rest = none →
      Mock.Delete.loop n i cur rest = (cur, some Error.errNotExist) := by
  induction rest with
  | nil => intro i cur _ h; simp [MockZnode.descend] at h
  | cons s rest ih =>
    intro i cur hi h
    rw [MockZnode.descend_cons] at h
    cases hg : mapGet cur.children s with
    | none => simp [Mock.Delete.loop, hg]
    | some next =>
      rw [hg] at h
      have hrest : rest ≠ [] := by
        rintro rfl
        simp [MockZnode.descend] at h
      have hlen : 0 < rest.length := List.length_pos.2 hrest
      have hne : ¬ i = n - 2 := by
        simp only [List.length_cons, Nat.cast_add, Nat.cast_one] at hi
        omega
      have hi2 : i + 1 + rest.length = n - 1 := by
        simp only [List.length_cons, Nat.cast_add, Nat.cast_one] at hi
        omega
      simp only [Mock.Delete.loop, hg, hne, if_false, ih (i + 1) next hi2 h]
      rw [mapSet_of_mapGet _ _ _ hg, MockZnode.eta]

theorem Children_loop_error (n : Int) (rest : List String) :
    ∀ (i : Int) (cur : MockZnode), i + rest.length = n - 1 → cur.descend rest = none →
      Mock.Children.loop n i cur rest = ([], some Error.errNotExist) := by
  induction rest with
  | nil => intro i cur _ _; rfl
  | cons s rest ih =>
    intro i cur hi h
    rw [MockZnode.descend_cons] at h
    cases hg : mapGet cur.children s with
    | none => simp [Mock.Children.loop, hg]
    | some next =>
      rw [hg] at h
      have hrest : rest ≠ [] := by
        rintro rfl
        simp [MockZnode.descend] at h
      have hlen : 0 < rest.length := List.length_pos.2 hrest
      have hne : ¬ i = n - 2 := by
        simp only [List.length_cons, Nat.cast_add, Nat.cast_one] at hi
        omega
      have hi2 : i + 1 + rest.length = n - 1 := by
        simp only [List.length_cons, Nat.cast_add, Nat.cast_one] at hi
        omega
      simp only [Mock.Children.loop, hg, hne, if_false, ih (i + 1) next hi2 h]

theorem NextInt_loop_result (rest : List String) :
    ∀ cur : MockZnode, (Mock.NextInt.loop cur rest).2 =
      match cur.descend rest with
      | some n => (n.version, none)
      | none => (0, some Error.errNotExist) := by
  induction rest with
  | nil => intro cur; rfl
  | cons s rest ih =>
    intro cur
    rw [MockZnode.descend_cons]
    cases h : mapGet cur.children s with
    | none => simp [Mock.NextInt.loop, h]
    | some n => simp [Mock.NextInt.loop, h, ih]

theorem NextInt_loop_descend (rest : List String) :
    ∀ cur n : MockZnode, cur.descend rest = some n →
      (Mock.NextInt.loop cur rest).1.descend rest =
        some (.mk n.value (wrapInt32 (n.version + 1)) n.children) := by
  induction rest with
  | nil =>
    intro cur n h
    simp only [MockZnode.descend, Option.some.injEq] at h
    subst h
    rfl
  | cons s rest ih =>
    intro cur n h
    rw [MockZnode.descend_cons] at h
    cases hg : mapGet cur.children s with
    | none => simp [hg] at h
    | some next =>
      rw [hg] at h
      simp only [Mock.NextInt.loop, hg, MockZnode.descend_cons, MockZnode.children_mk,
        mapGet_mapSet_self]
      exact ih next n h

theorem Mock.NextInt_result (zk : Mock) (p : String) :
    (zk.NextInt p).2 = (Mock.NextInt.loop zk.root (paths p)).2 := by
  unfold Mock.NextInt paths
  simp only [Mock.NextInt.loop, Mock.root, MockZnode.children_mk]
  cases mapGet zk.data (splitPath p).1 <;> rfl

theorem Mock.root_NextInt (zk : Mock) (p : String) :
    (zk.NextInt p).1.root = (Mock.NextInt.loop zk.root (paths p)).1 := by
  unfold Mock.NextInt paths
  simp only [Mock.NextInt.loop, Mock.root, MockZnode.children_mk]
  cases mapGet zk.data (splitPath p).1 <;> rfl

theorem Mock.versionOf_Set_self (zk : Mock) (p d : String) :
    (zk.Set p d).1.versionOf p = some (wrapInt32 ((zk.versionOf p).getD 0 + 1)) := by
  unfold Mock.versionOf
  rw [Mock.node_Set_self]
  cases zk.node p <;> rfl

theorem Mock.setAll_cons (zk : Mock) (p v : String) (vs : List String) :
    zk.setAll p (v :: vs) = (zk.Set p v).1.setAll p vs := rfl

theorem Mock.versionOf_setAll (p : String) (vs : List String) :
    ∀ (zk : Mock) (m : Int), zk.versionOf p = some m → 0 ≤ m →
      m + vs.length ≤ 2147483647 → (zk.setAll p vs).versionOf p = some (m + vs.length) := by
  induction vs with
  | nil => intro zk m h _ _; simpa [Mock.setAll] using h
  | cons v vs ih =>
    intro zk m h h0 hmax
    simp only [List.length_cons, Nat.cast_add, Nat.cast_one] at hmax
    have hstep : (zk.Set p v).1.versionOf p = some (m + 1) := by
      rw [Mock.versionOf_Set_self, h]
      simp only [Option.getD_some]
      rw [wrapInt32_of_isInt32]
      constructor <;> omega
    rw [Mock.setAll_cons, ih _ (m + 1) hstep (by omega) (by omega)]
    simp only [List.length_cons, Nat.cast_add, Nat.cast_one]
    congr 1
    omega

theorem Delete_single (zk : Mock) (p : String) (h : (splitPath p).2 = [])
    (hex : (zk.Exists p).1 = true) : zk.Delete p = (zk, none) := by
  rw [Mock.Exists_eq] at hex
  unfold Mock.node at hex
  unfold Mock.Delete
  dsimp only
  cases hg : mapGet zk.data (splitPath p).1 with
  | none => simp [hg] at hex
  | some cur =>
    simp only [h, Mock.Delete.loop]
    rw [mapSet_of_mapGet _ _ _ hg]

theorem Children_single (zk : Mock) (p : String) (h : (splitPath p).2 = []) :
    zk.Children p = ([], some Error.errNotExist) := by
  unfold Mock.Children
  dsimp only
  cases hg : mapGet zk.data (splitPath p).1 with
  | none => rfl
  | some cur => simp only [h, Mock.Children.loop]

theorem NextInt_loop_error (rest : List String) :
    ∀ cur : MockZnode, cur.descend rest = none →
      Mock.NextInt.loop cur rest = (cur, 0, some Error.errNotExist) := by
  induction rest with
  | nil => intro cur h; simp [MockZnode.descend] at h
  | cons s rest ih =>
    intro cur h
    rw [MockZnode.descend_cons] at h
    cases hg : mapGet cur.children s with
    | none => simp [Mock.NextInt.loop, hg]
    | some next =>
      rw [hg] at h
      simp only [Mock.NextInt.loop, hg, ih next h]
      rw [mapSet_of_mapGet _ _ _ hg, MockZnode.eta]

theorem Mock.node_Set_ancestor (zk : Mock) (p d q : String) (r : List String)
    (hr : r ≠ []) (hp : paths p = paths q ++ r) :
    ∃ n : MockZnode, (zk.Set p d).1.node q = some n ∧
      n.value = ((zk.node q).getD MockZnode.new).value ∧
      n.version = ((zk.node q).getD MockZnode.new).version := by
  simp only [Mock.node_eq_descend, Mock.root_Set, hp]
  exact descend_Set_loop_ancestor d (paths q) r hr zk.root

/-! ## The claims -/

/-- C1 (round trip): in every store, for every path string `p` and value `v`, `Set(p, v)`
returns a nil error and a following `Get(p)` returns the bytes of `v` with a nil error. -/
theorem Set_Get_round_trip (zk : Mock) (p v : String) :
    (zk.Set p v).2 = none ∧ (zk.Set p v).1.Get p = (toBytes v, none) := by
  refine ⟨rfl, ?_⟩
  rw [Mock.Get_eq, Mock.node_Set_self]
  rfl

/-- C2 (subtree deletion), the code at the failing input: on the empty store, after
`Set("/a/b", v)` the call `Delete("/a")` returns a nil error and deletes nothing, so that
`Exists("/a")` and `Exists("/a/b")` are still true. -/
theorem Delete_top_level_deletes_nothing (v : String) :
    ((NewZooKeeperMock.Set "/a/b" v).1.Delete "/a").2 = none ∧
    ((NewZooKeeperMock.Set "/a/b" v).1.Delete "/a").1.Exists "/a" = (true, none) ∧
    ((NewZooKeeperMock.Set "/a/b" v).1.Delete "/a").1.Exists "/a/b" = (true, none) := by
  have hs : (splitPath "/a").2 = [] := by decide
  have hex : ((NewZooKeeperMock.Set "/a/b" v).1.Exists "/a").1 = true := by
    rw [Mock.Exists_eq, Mock.node_eq_descend, Mock.root_Set]
    obtain ⟨n, hn, -⟩ := descend_Set_loop_ancestor v ["a"] ["b"] (by simp)
      NewZooKeeperMock.root
    have hp : paths "/a/b" = ["a"] ++ ["b"] := by decide
    have hq : paths "/a" = ["a"] := by decide
    rw [hp, hq, hn]
    rfl
  have hex2 : (NewZooKeeperMock.Set "/a/b" v).1.Exists "/a/b" = (true, none) := by
    rw [Mock.Exists_eq, Mock.node_Set_self]
    rfl
  rw [Delete_single _ _ hs hex]
  refine ⟨rfl, ?_, hex2⟩
  rw [Mock.Exists_eq] at hex ⊢
  dsimp only at hex ⊢
  rw [hex]

/-- C3 (children enumeration), the code at the failing input: on the empty store, after
`Set("/p/x")`, `Set("/p/y")` and `Set("/p/z")` the path `/p` exists, yet `Children("/p")`
returns no name and the error `errNotExist`. -/
theorem Children_top_level_errNotExist :
    (((NewZooKeeperMock.Set "/p/x" "1").1.Set "/p/y" "2").1.Set "/p/z" "3").1.Exists "/p"
      = (true, none) ∧
    (((NewZooKeeperMock.Set "/p/x" "1").1.Set "/p/y" "2").1.Set "/p/z" "3").1.Exists "/p/x"
      = (true, none) ∧
    (((NewZooKeeperMock.Set "/p/x" "1").1.Set "/p/y" "2").1.Set "/p/z" "3").1.Children "/p"
      = ([], some Error.errNotExist) := by
  decide

/-- C4 as stated fails: on the empty store the path `/a` does not exist, and after the one
`Set` that creates it its version is 1, not 0. -/
theorem version_after_creating_Set_is_one :
    NewZooKeeperMock.Exists "/a" = (false, none) ∧
    (NewZooKeeperMock.setAll "/a" ["v"]).versionOf "/a" = some 1 ∧
    (NewZooKeeperMock.setAll "/a" ["v"]).versionOf "/a" ≠ some 0 := by
  decide

/-- C4 amended (version sequence): when `p` does not exist and `Set(p, v1)`, ..., `Set(p, vn)`
are performed in turn, with any values, the version of the node at `p` after the `k`-th `Set`
is `k` (1 right after the creating `Set`), for every `1 ≤ k ≤ n` up to the `int32` maximum. -/
theorem version_sequence_from_one (zk : Mock) (p : String) (vs : List String) (k : Nat)
    (hne : (zk.Exists p).1 = false) (h1 : 1 ≤ k) (hk : k ≤ vs.length)
    (hmax : k ≤ 2147483647) :
    (zk.setAll p (vs.take k)).versionOf p = some (k : Int) := by
  have hlen : (vs.take k).length = k := by simp [hk]
  cases hw : vs.take k with
  | nil => rw [hw] at hlen; simp at hlen; omega
  | cons v tl =>
    rw [hw] at hlen
    simp only [List.length_cons] at hlen
    have h0 : zk.versionOf p = none := by
      unfold Mock.versionOf
      rw [zk.node_eq_none_of_not_Exists p hne]
      rfl
    have hfirst : (zk.Set p v).1.versionOf p = some 1 := by
      rw [Mock.versionOf_Set_self, h0]
      rfl
    rw [Mock.setAll_cons, Mock.versionOf_setAll p tl _ 1 hfirst (by omega) (by omega)]
    congr 1
    omega

theorem version_sequence_from_one_witness :
    (NewZooKeeperMock.Exists "/a").1 = false ∧
    (NewZooKeeperMock.setAll "/a" (["x", "x", "y"].take 3)).versionOf "/a"
      = some ((3 : Nat) : Int) :=
  ⟨by decide,
   version_sequence_from_one NewZooKeeperMock "/a" ["x", "x", "y"] 3 (by decide)
     (by decide) (by decide) (by decide)⟩

/-- C5 (missing path errors): in every store, for every path `p` for which `Exists(p)` is
false, `Get(p)`, `Delete(p)`, `Children(p)` and `NextInt(p)` all return `errNotExist` (with
the zero value of their result), and `Delete` and `NextInt` leave the store as it was; on
the empty store `Exists` is false for every path. -/
theorem missing_path_errors (zk : Mock) (p : String) (h : (zk.Exists p).1 = false) :
    zk.Get p = ([], some Error.errNotExist) ∧
    zk.Delete p = (zk, some Error.errNotExist) ∧
    zk.Children p = ([], some Error.errNotExist) ∧
    zk.NextInt p = (zk, 0, some Error.errNotExist) ∧
    (∀ q : String, NewZooKeeperMock.Exists q = (false, none)) := by
  have hn := zk.node_eq_none_of_not_Exists p h
  refine ⟨?_, ?_, ?_, ?_, fun q => rfl⟩
  · rw [Mock.Get_eq, hn]
  · unfold Mock.node at hn
    unfold Mock.Delete
    dsimp only
    cases hg : mapGet zk.data (splitPath p).1 with
    | none => rfl
    | some cur =>
      rw [hg] at hn
      dsimp only at hn ⊢
      rw [Delete_loop_error _ _ 0 cur (by omega) hn]
      dsimp only
      rw [mapSet_of_mapGet _ _ _ hg]
  · unfold Mock.node at hn
    unfold Mock.Children
    dsimp only
    cases hg : mapGet zk.data (splitPath p).1 with
    | none => rfl
    | some cur =>
      rw [hg] at hn
      dsimp only at hn ⊢
      exact Children_loop_error _ _ 0 cur (by omega) hn
  · unfold Mock.node at hn
    unfold Mock.NextInt
    dsimp only
    cases hg : mapGet zk.data (splitPath p).1 with
    | none => rfl
    | some cur =>
      rw [hg] at hn
      dsimp only at hn ⊢
      rw [NextInt_loop_error _ cur hn]
      dsimp only
      rw [mapSet_of_mapGet _ _ _ hg]

theorem missing_path_errors_witness :
    ((NewZooKeeperMock.Set "/a/b" "v").1.Exists "/a/c/d").1 = false ∧
    ((NewZooKeeperMock.Set "/a/b" "v").1.Get "/a/c/d" = ([], some Error.errNotExist) ∧
     (NewZooKeeperMock.Set "/a/b" "v").1.Delete "/a/c/d"
       = ((NewZooKeeperMock.Set "/a/b" "v").1, some Error.errNotExist) ∧
     (NewZooKeeperMock.Set "/a/b" "v").1.Children "/a/c/d" = ([], some Error.errNotExist) ∧
     (NewZooKeeperMock.Set "/a/b" "v").1.NextInt "/a/c/d"
       = ((NewZooKeeperMock.Set "/a/b" "v").1, 0, some Error.errNotExist) ∧
     (∀ q : String, NewZooKeeperMock.Exists q = (false, none))) :=
  ⟨by decide, missing_path_errors (NewZooKeeperMock.Set "/a/b" "v").1 "/a/c/d" (by decide)⟩

/-- C6 (implicit ancestor creation): after `Set(p, v)` there is a node at every prefix `segs`
of the segments of `p`, and such a node above the target that was missing before has an
empty value and version 0; so every path string `q` with these segments exists afterwards
(with `Get` returning the empty value and version 0 when it was missing and is not the
target); in particular `Set("/a/b/c", v)` on the empty store makes `/a`, `/a/b` and `/a/b/c`
exist. -/
theorem Set_creates_ancestors (zk : Mock) (p v : String) (segs : List String)
    (h : segs <+: paths p) :
    (∃ n : MockZnode, (zk.Set p v).1.root.descend segs = some n ∧
      (segs ≠ paths p → zk.root.descend segs = none → n.value = [] ∧ n.version = 0)) ∧
    (∀ q : String, paths q = segs →
      (zk.Set p v).1.Exists q = (true, none) ∧
      (segs ≠ paths p → (zk.Exists q).1 = false →
        (zk.Set p v).1.Get q = ([], none) ∧ (zk.Set p v).1.versionOf q = some 0)) ∧
    ((NewZooKeeperMock.Set "/a/b/c" v).1.Exists "/a" = (true, none) ∧
     (NewZooKeeperMock.Set "/a/b/c" v).1.Exists "/a/b" = (true, none) ∧
     (NewZooKeeperMock.Set "/a/b/c" v).1.Exists "/a/b/c" = (true, none)) := by
  have key : ∀ (z : Mock) (a : String) (sg : List String), sg <+: paths a →
      ∃ n : MockZnode, (z.Set a v).1.root.descend sg = some n ∧
        (sg ≠ paths a → z.root.descend sg = none → n.value = [] ∧ n.version = 0) := by
    intro z a sg hab
    obtain ⟨r, hr⟩ := hab
    by_cases hnil : r = []
    · subst hnil
      rw [List.append_nil] at hr
      subst hr
      rw [← Mock.node_eq_descend, Mock.node_Set_self]
      exact ⟨_, rfl, fun hne => absurd rfl hne⟩
    · rw [Mock.root_Set, ← hr]
      obtain ⟨n, hn, hval, hver⟩ := descend_Set_loop_ancestor v sg r hnil z.root
      refine ⟨n, hn, fun _ hex => ?_⟩
      rw [hex] at hval hver
      exact ⟨hval, hver⟩
  have keyq : ∀ (z : Mock) (a q : String) (sg : List String), sg <+: paths a →
      paths q = sg → (z.Set a v).1.Exists q = (true, none) ∧
      (sg ≠ paths a → (z.Exists q).1 = false →
        (z.Set a v).1.Get q = ([], none) ∧ (z.Set a v).1.versionOf q = some 0) := by
    intro z a q sg hab hq
    obtain ⟨n, hn, hnew⟩ := key z a sg hab
    rw [← hq, ← Mock.node_eq_descend] at hn
    refine ⟨?_, fun hne hex => ?_⟩
    · rw [Mock.Exists_eq, hn]
      rfl
    · have hmiss : z.root.descend sg = none := by
        rw [← hq, ← Mock.node_eq_descend]
        exact z.node_eq_none_of_not_Exists q hex
      obtain ⟨hval, hver⟩ := hnew hne hmiss
      refine ⟨?_, ?_⟩
      · rw [Mock.Get_eq, hn]
        dsimp only
        rw [hval]
      · unfold Mock.versionOf
        rw [hn]
        simp only [Option.map_some']
        rw [hver]
  refine ⟨key zk p segs h, fun q hq => keyq zk p q segs h hq, ?_, ?_, ?_⟩
  · exact (keyq NewZooKeeperMock "/a/b/c" "/a" _ (by decide) rfl).1
  · exact (keyq NewZooKeeperMock "/a/b/c" "/a/b" _ (by decide) rfl).1
  · exact (keyq NewZooKeeperMock "/a/b/c" "/a/b/c" _ (by decide) rfl).1

theorem Set_creates_ancestors_witness :
    ["k", "b"] <+: paths "/k/b/c" ∧
    paths "/k/b" = ["k", "b"] ∧
    ((NewZooKeeperMock.Set "/k" "w").1.Set "/k/b/c" "v").1.Exists "/k/b" = (true, none) ∧
    (["k", "b"] ≠ paths "/k/b/c" →
      ((NewZooKeeperMock.Set "/k" "w").1.Exists "/k/b").1 = false →
      ((NewZooKeeperMock.Set "/k" "w").1.Set "/k/b/c" "v").1.Get "/k/b" = ([], none) ∧
      ((NewZooKeeperMock.Set "/k" "w").1.Set "/k/b/c" "v").1.versionOf "/k/b" = some 0) :=
  ⟨by decide, by decide,
   (Set_creates_ancestors (NewZooKeeperMock.Set "/k" "w").1 "/k/b/c" "v" ["k", "b"]
      (by decide)).2.1 "/k/b" (by decide)⟩

/-- C7 as stated fails: `/a//b` has an empty intermediate segment and does not exist in the
empty store, yet `Set` returns a nil error and afterwards the path exists. -/
theorem Set_accepts_empty_segment :
    hasEmptyIntermediateSegment "/a//b" ∧
    NewZooKeeperMock.Exists "/a//b" = (false, none) ∧
    (NewZooKeeperMock.Set "/a//b" "v").2 = none ∧
    (NewZooKeeperMock.Set "/a//b" "v").1.Exists "/a//b" = (true, none) ∧
    (NewZooKeeperMock.Set "/a//b" "v").1.Exists "/a" = (true, none) := by
  decide

/-- C7 amended: a path string with an empty intermediate segment is not rejected: in every
store `Set` returns a nil error for it and creates the node it addresses, which then exists
and holds the value. -/
theorem Set_with_empty_segment_succeeds (zk : Mock) (p v : String)
    (_h : hasEmptyIntermediateSegment p) :
    (zk.Set p v).2 = none ∧
    (zk.Set p v).1.Exists p = (true, none) ∧
    (zk.Set p v).1.Get p = (toBytes v, none) := by
  refine ⟨rfl, ?_, ?_⟩
  · rw [Mock.Exists_eq, Mock.node_Set_self]
    rfl
  · rw [Mock.Get_eq, Mock.node_Set_self]
    rfl

theorem Set_with_empty_segment_succeeds_witness :
    hasEmptyIntermediateSegment "/a//b" ∧
    ((NewZooKeeperMock.Set "/a//b" "v").2 = none ∧
     (NewZooKeeperMock.Set "/a//b" "v").1.Exists "/a//b" = (true, none) ∧
     (NewZooKeeperMock.Set "/a//b" "v").1.Get "/a//b" = (toBytes "v", none)) :=
  ⟨by decide, Set_with_empty_segment_succeeds NewZooKeeperMock "/a//b" "v" (by decide)⟩

/-- C8 (Exists agrees with Get): in every store and for every path `p`, `Exists(p)` returns a
nil error, and its boolean is true if and only if `Get(p)` returns a nil error. -/
theorem Exists_iff_Get_succeeds (zk : Mock) (p : String) :
    (zk.Exists p).2 = none ∧ ((zk.Exists p).1 = true ↔ (zk.Get p).2 = none) := by
  unfold Mock.Exists
  dsimp only
  cases h : (zk.Get p).2 with
  | none => simp
  | some e => cases e; simp

/-- C9 (a write increments the version by one): when the node at `p` exists with an `int32`
version `n` below the maximum, `Set(p, v)`, for any value `v`, leaves it with version
`n + 1`. -/
theorem Set_increments_version (zk : Mock) (p v : String) (n : Int)
    (h : zk.versionOf p = some n) (hr : isInt32 n) (hlt : n < 2147483647) :
    (zk.Set p v).1.versionOf p = some (n + 1) := by
  rw [Mock.versionOf_Set_self, h]
  simp only [Option.getD_some]
  rw [wrapInt32_of_isInt32]
  unfold isInt32 at hr ⊢
  omega

theorem Set_increments_version_witness :
    (NewZooKeeperMock.Set "/a/b" "v").1.versionOf "/a/b" = some 1 ∧
    ((NewZooKeeperMock.Set "/a/b" "v").1.Set "/a/b" "v").1.versionOf "/a/b"
      = some (1 + 1) :=
  ⟨by decide,
   Set_increments_version (NewZooKeeperMock.Set "/a/b" "v").1 "/a/b" "v" 1 (by decide)
     (by unfold isInt32; decide) (by decide)⟩

/-- C10 (NextInt): when the node at `p` exists with an `int32` version `v` below the maximum,
`NextInt(p)` returns `v` with a nil error and an immediately following `NextInt(p)` returns
`v + 1` with a nil error. -/
theorem NextInt_returns_and_advances (zk : Mock) (p : String) (v : Int)
    (h : zk.versionOf p = some v) (hr : isInt32 v) (hlt : v < 2147483647) :
    (zk.NextInt p).2 = (v, none) ∧ ((zk.NextInt p).1.NextInt p).2 = (v + 1, none) := by
  unfold Mock.versionOf at h
  cases hn : zk.node p with
  | none => simp [hn] at h
  | some nd =>
    rw [hn] at h
    simp only [Option.map_some', Option.some.injEq] at h
    rw [Mock.node_eq_descend] at hn
    have hw : wrapInt32 (v + 1) = v + 1 := by
      apply wrapInt32_of_isInt32
      unfold isInt32 at hr ⊢
      omega
    have h2 := NextInt_loop_descend (paths p) zk.root nd hn
    rw [← Mock.root_NextInt] at h2
    refine ⟨?_, ?_⟩
    · rw [Mock.NextInt_result, NextInt_loop_result, hn]
      dsimp only
      rw [h]
    · rw [Mock.NextInt_result, NextInt_loop_result, h2]
      dsimp only
      rw [MockZnode.version_mk, h, hw]

theorem NextInt_returns_and_advances_witness :
    (NewZooKeeperMock.Set "/a/b" "v").1.versionOf "/a/b" = some 1 ∧
    (((NewZooKeeperMock.Set "/a/b" "v").1.NextInt "/a/b").2 = (1, none) ∧
     (((NewZooKeeperMock.Set "/a/b" "v").1.NextInt "/a/b").1.NextInt "/a/b").2
       = (1 + 1, none)) :=
  ⟨by decide,
   NextInt_returns_and_advances (NewZooKeeperMock.Set "/a/b" "v").1 "/a/b" 1 (by decide)
     (by unfold isInt32; decide) (by decide)⟩

/-! ## Further lemmas on nodes: walks and frames -/

theorem MockZnode.descend_append (q r : List String) :
    ∀ cur : MockZnode, cur.descend (q ++ r) = (cur.descend q).bind (fun n => n.descend r) := by
  induction q with
  | nil => intro cur; rfl
  | cons s q ih =>
    intro cur
    rw [List.cons_append, MockZnode.descend_cons, MockZnode.descend_cons]
    cases mapGet cur.children s with
    | none => rfl
    | some next => exact ih next

theorem MockZnode.descend_isSome_of_prefix (cur : MockZnode) (q segs : List String)
    (h : q <+: segs) (hs : (cur.descend segs).isSome = true) :
    (cur.descend q).isSome = true := by
  obtain ⟨r, rfl⟩ := h
  rw [MockZnode.descend_append] at hs
  cases hq : cur.descend q with
  | none => simp [hq] at hs
  | some n => rfl

theorem MockZnode.descend_children_only (v1 v2 : List UInt8) (n1 n2 : Int)
    (c : List (String × MockZnode)) (r : List String) (hr : r ≠ []) :
    (MockZnode.mk v1 n1 c).descend r = (MockZnode.mk v2 n2 c).descend r := by
  cases r with
  | nil => exact absurd rfl hr
  | cons s r => rfl

theorem MockZnode.descend_new_of_ne_nil (r : List String) (hr : r ≠ []) :
    MockZnode.new.descend r = none := by
  cases r with
  | nil => exact absurd rfl hr
  | cons s r => rfl

/-- The walk of `Set` leaves every node strictly below the end of the walked names as it
was. -/
theorem descend_Set_loop_below (d : String) (rest r : List String) (hr : r ≠ [])
    (cur : MockZnode) :
    (Mock.Set.loop d cur rest).descend (rest ++ r) = cur.descend (rest ++ r) := by
  rw [MockZnode.descend_append, MockZnode.descend_append, descend_Set_loop_target]
  cases h : cur.descend rest with
  | none =>
    show (MockZnode.mk (toBytes d) _ MockZnode.new.children).descend r = none
    rw [MockZnode.descend_children_only _ [] _ 0 _ r hr]
    exact MockZnode.descend_new_of_ne_nil r hr
  | some nd =>
    show (MockZnode.mk (toBytes d) _ nd.children).descend r = nd.descend r
    rw [MockZnode.descend_children_only _ nd.value _ nd.version _ r hr, MockZnode.eta]

/-- The walk of `Set` keeps the value and the version of every node that existed, the node
at the end of the walked names apart. -/
theorem descend_Set_loop_payload (d : String) (rest q : List String) (hne : rest ≠ q)
    (cur nd : MockZnode) (h : cur.descend q = some nd) :
    ((Mock.Set.loop d cur rest).descend q).map MockZnode.payload = some nd.payload := by
  by_cases h1 : q <+: rest
  · obtain ⟨r, hr⟩ := h1
    have hrne : r ≠ [] := by
      rintro rfl
      exact hne (by simpa using hr.symm)
    obtain ⟨n, hn, hval, hver⟩ := descend_Set_loop_ancestor d q r hrne cur
    rw [← hr, hn]
    rw [h] at hval hver
    simp only [Option.map_some', MockZnode.payload, hval, hver, Option.getD_some]
  · by_cases h2 : rest <+: q
    · obtain ⟨r, hr⟩ := h2
      have hrne : r ≠ [] := by
        rintro rfl
        exact hne (by simpa using hr)
      rw [← hr, descend_Set_loop_below d rest r hrne cur, hr, h]
      rfl
    · rw [descend_Set_loop_other d rest cur q h1 h2, h]
      rfl

/-- When the walk of `Delete` reaches the end of the walked names, the error is nil and
afterwards there is no node at these names nor below them. -/
theorem Delete_loop_removes (n : Int) (rest : List String) :
    ∀ (i : Int) (cur : MockZnode), i + rest.length = n - 1 → rest ≠ [] →
      (cur.descend rest).isSome = true →
      (Mock.Delete.loop n i cur rest).2 = none ∧
      ∀ q : List String, rest <+: q → (Mock.Delete.loop n i cur rest).1.descend q = none := by
  induction rest with
  | nil => intro i cur _ h; exact absurd rfl h
  | cons s rest ih =>
    intro i cur hi _ hs
    simp only [List.length_cons, Nat.cast_add, Nat.cast_one] at hi
    rw [MockZnode.descend_cons] at hs
    cases hg : mapGet cur.children s with
    | none => simp [hg] at hs
    | some next =>
      rw [hg] at hs
      by_cases hrest : rest = []
      · subst hrest
        have hi2 : i = n - 2 := by
          simp only [List.length_nil, Nat.cast_zero] at hi
          omega
        simp only [Mock.Delete.loop, hg, hi2, if_true, true_and]
        intro q hq
        obtain ⟨r, rfl⟩ := hq
        simp only [List.singleton_append, MockZnode.descend_cons, MockZnode.children_mk,
          mapGet_mapDelete_self]
      · have hlen : 0 < rest.length := List.length_pos.2 hrest
        have hne : ¬ i = n - 2 := by omega
        obtain ⟨he, hq⟩ := ih (i + 1) next (by omega) hrest hs
        simp only [Mock.Delete.loop, hg, hne, if_false]
        refine ⟨he, ?_⟩
        intro q hpre
        obtain ⟨r, rfl⟩ := hpre
        simp only [List.cons_append, MockZnode.descend_cons, MockZnode.children_mk,
          mapGet_mapSet_self]
        exact hq (rest ++ r) (List.prefix_append rest r)

/-- The walk of `Delete` keeps the value and the version of every node that is not at the
walked names nor below them. -/
theorem Delete_loop_payload (n : Int) (rest : List String) :
    ∀ (i : Int) (cur : MockZnode), i + rest.length = n - 1 →
      ∀ q : List String, ¬ rest <+: q →
        ((Mock.Delete.loop n i cur rest).1.descend q).map MockZnode.payload
          = (cur.descend q).map MockZnode.payload := by
  induction rest with
  | nil => intro i cur _ q h; exact absurd List.nil_prefix h
  | cons s rest ih =>
    intro i cur hi q hq
    simp only [List.length_cons, Nat.cast_add, Nat.cast_one] at hi
    cases hg : mapGet cur.children s with
    | none => simp only [Mock.Delete.loop, hg]
    | some next =>
      by_cases hi2 : i = n - 2
      · have hrest : rest = [] := by
          apply List.eq_nil_of_length_eq_zero
          omega
        subst hrest
        simp only [Mock.Delete.loop, hg, hi2, if_true]
        cases q with
        | nil => rfl
        | cons t q =>
          have hts : s ≠ t := by
            rintro rfl
            exact hq ⟨q, rfl⟩
          simp only [MockZnode.descend_cons, MockZnode.children_mk,
            mapGet_mapDelete_ne _ _ _ hts]
      · simp only [Mock.Delete.loop, hg, hi2, if_false]
        cases q with
        | nil => rfl
        | cons t q =>
          by_cases hts : s = t
          · subst hts
            have hq2 : ¬ rest <+: q := fun h => hq ((List.prefix_cons_inj s).2 h)
            simp only [MockZnode.descend_cons, MockZnode.children_mk, mapGet_mapSet_self, hg]
            exact ih (i + 1) next (by omega) q hq2
          · simp only [MockZnode.descend_cons, MockZnode.children_mk,
              mapGet_mapSet_ne _ _ _ _ hts]

/-- The walk of `NextInt` keeps the value of every node and creates or removes none. -/
theorem NextInt_loop_value (rest : List String) :
    ∀ (cur : MockZnode) (q : List String),
      ((Mock.NextInt.loop cur rest).1.descend q).map MockZnode.value
        = (cur.descend q).map MockZnode.value := by
  induction rest with
  | nil =>
    intro cur q
    cases q with
    | nil => rfl
    | cons t q => rfl
  | cons s rest ih =>
    intro cur q
    cases hg : mapGet cur.children s with
    | none => simp only [Mock.NextInt.loop, hg]
    | some next =>
      simp only [Mock.NextInt.loop, hg]
      cases q with
      | nil => rfl
      | cons t q =>
        by_cases hts : s = t
        · subst hts
          simp only [MockZnode.descend_cons, MockZnode.children_mk, mapGet_mapSet_self, hg]
          exact ih next q
        · simp only [MockZnode.descend_cons, MockZnode.children_mk,
            mapGet_mapSet_ne _ _ _ _ hts]

/-! ## Further lemmas on the store -/

theorem Mock.obs_of_value_eq (zk1 zk2 : Mock) (q : String)
    (h : (zk1.node q).map MockZnode.value = (zk2.node q).map MockZnode.value) :
    zk1.Exists q = zk2.Exists q ∧ zk1.Get q = zk2.Get q := by
  rw [Mock.Exists_eq, Mock.Exists_eq, Mock.Get_eq, Mock.Get_eq]
  cases h1 : zk1.node q with
  | none =>
    cases h2 : zk2.node q with
    | none => exact ⟨rfl, rfl⟩
    | some n2 => simp [h1, h2] at h
  | some n1 =>
    cases h2 : zk2.node q with
    | none => simp [h1, h2] at h
    | some n2 =>
      simp only [h1, h2, Option.map_some', Option.some.injEq] at h
      simp [h]

theorem Mock.value_eq_of_payload_eq (zk1 zk2 : Mock) (q : String)
    (h : (zk1.node q).map MockZnode.payload = (zk2.node q).map MockZnode.payload) :
    (zk1.node q).map MockZnode.value = (zk2.node q).map MockZnode.value := by
  have := congrArg (Option.map Prod.fst) h
  simpa [Option.map_map, Function.comp_def, MockZnode.payload] using this

theorem Mock.versionOf_eq_of_payload_eq (zk1 zk2 : Mock) (q : String)
    (h : (zk1.node q).map MockZnode.payload = (zk2.node q).map MockZnode.payload) :
    zk1.versionOf q = zk2.versionOf q := by
  have := congrArg (Option.map Prod.snd) h
  simpa [Mock.versionOf, Option.map_map, Function.comp_def, MockZnode.payload] using this

theorem Mock.Delete_fst_single (zk : Mock) (p : String) (h : (splitPath p).2 = []) :
    (zk.Delete p).1 = zk := by
  unfold Mock.Delete
  dsimp only
  cases hg : mapGet zk.data (splitPath p).1 with
  | none => rfl
  | some cur =>
    simp only [h, Mock.Delete.loop]
    rw [mapSet_of_mapGet _ _ _ hg]

theorem Mock.Delete_eq_loop (zk : Mock) (p : String) (h : (splitPath p).2 ≠ []) :
    (zk.Delete p).2
        = (Mock.Delete.loop (1 + ((splitPath p).2.length : Int)) (-1) zk.root (paths p)).2 ∧
    (zk.Delete p).1.root
        = (Mock.Delete.loop (1 + ((splitPath p).2.length : Int)) (-1) zk.root (paths p)).1 := by
  have hlen : 0 < (splitPath p).2.length := List.length_pos.2 h
  have hne : ¬ (-1 : Int) = 1 + ((splitPath p).2.length : Int) - 2 := by omega
  have h0 : (-1 : Int) + 1 = 0 := by norm_num
  unfold Mock.Delete paths
  simp only [Mock.Delete.loop, Mock.root, MockZnode.children_mk, hne, if_false, h0,
    MockZnode.value_mk, MockZnode.version_mk]
  cases mapGet zk.data (splitPath p).1 <;> exact ⟨rfl, rfl⟩

theorem Mock.Delete_index (p : String) :
    (-1 : Int) + ((paths p).length : Int) = 1 + ((splitPath p).2.length : Int) - 1 := by
  simp only [paths, List.length_cons, Nat.cast_add, Nat.cast_one]
  omega

theorem Mock.NextInt_of_node_none (zk : Mock) (p : String) (hn : zk.node p = none) :
    zk.NextInt p = (zk, 0, some Error.errNotExist) := by
  unfold Mock.node at hn
  unfold Mock.NextInt
  dsimp only
  cases hg : mapGet zk.data (splitPath p).1 with
  | none => rfl
  | some cur =>
    rw [hg] at hn
    dsimp only at hn ⊢
    rw [NextInt_loop_error _ cur hn]
    dsimp only
    rw [mapSet_of_mapGet _ _ _ hg]

theorem Mock.NextInt_error_iff (zk : Mock) (p : String) :
    (zk.NextInt p).2.2 ≠ none → zk.node p = none := by
  intro h
  rw [Mock.NextInt_result, NextInt_loop_result, ← Mock.node_eq_descend] at h
  cases hn : zk.node p with
  | none => rfl
  | some nd => simp [hn] at h

/-! ## Lemmas on `GetTopics` -/

theorem mapGet_mapSet_isSome {α : Type} (m : List (String × α)) (k x : String) (v : α) :
    (mapGet (mapSet m k v) x).isSome = true ↔ (mapGet m x).isSome = true ∨ k = x := by
  by_cases h : k = x
  · subst h
    simp [mapGet_mapSet_self]
  · simp [mapGet_mapSet_ne _ _ _ _ h, h]

theorem GetTopics_inner_isSome (topicRe : String → Bool) (t : List String) (x : String) :
    ∀ m : List (String × Bool),
      (mapGet (Mock.GetTopics.inner topicRe t m) x).isSome = true ↔
        (mapGet m x).isSome = true ∨ (x ∈ t ∧ topicRe x = true) := by
  induction t with
  | nil => intro m; simp [Mock.GetTopics.inner]
  | cons a t ih =>
    intro m
    have hstep : Mock.GetTopics.inner topicRe (a :: t) m =
        Mock.GetTopics.inner topicRe t (if topicRe a then mapSet m a true else m) := rfl
    rw [hstep, ih]
    by_cases ha : topicRe a = true
    · simp only [ha, if_true, mapGet_mapSet_isSome, List.mem_cons]
      constructor
      · rintro ((h | h) | ⟨h1, h2⟩)
        · exact Or.inl h
        · exact Or.inr ⟨Or.inl h.symm, h ▸ ha⟩
        · exact Or.inr ⟨Or.inr h1, h2⟩
      · rintro (h | ⟨h1 | h1, h2⟩)
        · exact Or.inl (Or.inl h)
        · exact Or.inl (Or.inr h1.symm)
        · exact Or.inr ⟨h1, h2⟩
    · simp only [ha, List.mem_cons]
      constructor
      · rintro (h | ⟨h1, h2⟩)
        · exact Or.inl h
        · exact Or.inr ⟨Or.inr h1, h2⟩
      · rintro (h | ⟨h1 | h1, h2⟩)
        · exact Or.inl h
        · exact absurd (h1 ▸ h2) ha
        · exact Or.inr ⟨h1, h2⟩

theorem GetTopics_outer_isSome (t : List String) (x : String) (ts : List (String → Bool)) :
    ∀ m : List (String × Bool),
      (mapGet (ts.foldl (fun m topicRe => Mock.GetTopics.inner topicRe t m) m) x).isSome = true
        ↔ (mapGet m x).isSome = true ∨ (x ∈ t ∧ ∃ topicRe ∈ ts, topicRe x = true) := by
  induction ts with
  | nil => intro m; simp
  | cons re ts ih =>
    intro m
    rw [List.foldl_cons, ih, GetTopics_inner_isSome]
    constructor
    · rintro ((h | ⟨h1, h2⟩) | ⟨h1, r, hr, h2⟩)
      · exact Or.inl h
      · exact Or.inr ⟨h1, re, List.mem_cons_self _ _, h2⟩
      · exact Or.inr ⟨h1, r, List.mem_cons_of_mem _ hr, h2⟩
    · rintro (h | ⟨h1, r, hr, h2⟩)
      · exact Or.inl (Or.inl h)
      · rcases List.mem_cons.1 hr with rfl | hr
        · exact Or.inl (Or.inr ⟨h1, h2⟩)
        · exact Or.inr ⟨h1, r, hr, h2⟩

theorem Mock.mem_GetTopics (zk : Mock) (ts : List (String → Bool)) (x : String) :
    x ∈ (zk.GetTopics ts).1 ↔
      (x ∈ ["test_topic", "test_topic2"] ∧ ∃ topicRe ∈ ts, topicRe x = true) := by
  unfold Mock.GetTopics
  simp only [List.nil_append]
  rw [mem_mapKeys, GetTopics_outer_isSome]
  simp [mapGet]

/-! ## Lemmas on the metric name rewriting -/

theorem digitChar_ne_dot (d : Nat) : Nat.digitChar d ≠ '.' := by
  by_cases h : d < 16
  · interval_cases d <;> decide
  · unfold Nat.digitChar
    iterate 16 rw [if_neg (by omega)]
    decide

theorem toDigitsCore_no_dot (f : Nat) :
    ∀ (n : Nat) (acc : List Char), '.' ∉ acc → '.' ∉ Nat.toDigitsCore 10 f n acc := by
  induction f with
  | zero => intro n acc h; simpa [Nat.toDigitsCore] using h
  | succ f ih =>
    intro n acc h
    have hcons : '.' ∉ Nat.digitChar (n % 10) :: acc := by
      intro hm
      rcases List.mem_cons.1 hm with h1 | h1
      · exact digitChar_ne_dot _ h1.symm
      · exact h h1
    simp only [Nat.toDigitsCore]
    split
    · exact hcons
    · exact ih _ _ hcons

theorem Nat_repr_no_dot (n : Nat) : '.' ∉ (Nat.repr n).data := by
  show '.' ∉ Nat.toDigitsCore 10 (n + 1) n []
  exact toDigitsCore_no_dot _ _ _ (by simp)

theorem Autothrottle.formatInt_no_dot (i : Int) :
    '.' ∉ (Autothrottle.formatInt i).data := by
  cases i with
  | ofNat m => exact Nat_repr_no_dot m
  | negSucc m =>
    show '.' ∉ ("-" ++ Nat.repr (m + 1)).data
    rw [String.data_append]
    intro h
    rcases List.mem_append.1 h with h1 | h1
    · revert h1; decide
    · exact Nat_repr_no_dot _ h1

theorem Autothrottle.cut_append (sep : Char) (a b : List Char) (ha : sep ∉ a) :
    Autothrottle.cut sep (a ++ sep :: b) = some (a, b) := by
  induction a with
  | nil => simp [Autothrottle.cut]
  | cons c a ih =>
    have hc : ¬ c = sep := fun h => ha (h ▸ List.mem_cons_self _ _)
    have ha2 : sep ∉ a := fun h => ha (List.mem_cons_of_mem _ h)
    simp [Autothrottle.cut, hc, ih ha2]

theorem Autothrottle.splitNChars_step (sep : Char) (n : Nat) (a b : List Char)
    (hn : n ≠ 0) (ha : sep ∉ a) :
    Autothrottle.splitNChars sep (n + 1) (a ++ sep :: b)
      = a :: Autothrottle.splitNChars sep n b := by
  simp [Autothrottle.splitNChars, hn, Autothrottle.cut_append sep a b ha]

theorem Autothrottle.SplitN_metricName (ID : Int) (role : String)
    (hrole : role = "leader" ∨ role = "follower") :
    Autothrottle.SplitN (Autothrottle.metricName ID role) '.' 6
      = ["broker", Autothrottle.formatInt ID, role, "replication", "throttled", "rate"] := by
  have hdata : (Autothrottle.metricName ID role).data =
      "broker".data ++ '.' :: ((Autothrottle.formatInt ID).data ++ '.' :: (role.data ++
        '.' :: ("replication".data ++ '.' :: ("throttled".data ++ '.' :: "rate".data)))) := by
    simp only [Autothrottle.metricName, String.data_append, List.append_assoc]
    rfl
  have hr : '.' ∉ role.data := by
    rcases hrole with rfl | rfl <;> decide
  unfold Autothrottle.SplitN
  rw [hdata,
    Autothrottle.splitNChars_step _ 5 _ _ (by decide) (by decide),
    Autothrottle.splitNChars_step _ 4 _ _ (by decide) (Autothrottle.formatInt_no_dot ID),
    Autothrottle.splitNChars_step _ 3 _ _ (by decide) hr,
    Autothrottle.splitNChars_step _ 2 _ _ (by decide) (by decide),
    Autothrottle.splitNChars_step _ 1 _ _ (by decide) (by decide)]
  rfl

theorem Mock.Exists_of_descend_isSome (zk : Mock) (q : String)
    (h : (zk.root.descend (paths q)).isSome = true) : zk.Exists q = (true, none) := by
  rw [Mock.Exists_eq, Mock.node_eq_descend, h]

theorem Mock.descend_isSome_of_Exists (zk : Mock) (q : String)
    (h : (zk.Exists q).1 = true) : (zk.root.descend (paths q)).isSome = true := by
  rw [Mock.Exists_eq, Mock.node_eq_descend] at h
  exact h

theorem Mock.Exists_false_of_descend_none (zk : Mock) (q : String)
    (h : zk.root.descend (paths q) = none) : zk.Exists q = (false, none) := by
  rw [Mock.Exists_eq, Mock.node_eq_descend, h]
  rfl

/-! ## The claims, continued -/

/-- C11 as stated fails: `/a/b` exists after `Set("/a/b", "v")` on the empty store and has no
child; `CreateSequential("/a/b", "w")` returns a nil error, and after one call and after two
calls `/a/b` still has no child. -/
theorem CreateSequential_adds_no_child :
    (NewZooKeeperMock.Set "/a/b" "v").1.Exists "/a/b" = (true, none) ∧
    (NewZooKeeperMock.Set "/a/b" "v").1.Children "/a/b" = ([], none) ∧
    ((NewZooKeeperMock.Set "/a/b" "v").1.CreateSequential "/a/b" "w").2 = none ∧
    ((NewZooKeeperMock.Set "/a/b" "v").1.CreateSequential "/a/b" "w").1.Children "/a/b"
      = ([], none) ∧
    (((NewZooKeeperMock.Set "/a/b" "v").1.CreateSequential "/a/b" "w").1.CreateSequential
      "/a/b" "w").1.Children "/a/b" = ([], none) := by
  decide

/-- C11 amended: `CreateSequential` allocates nothing: in every store and for every path and
value it returns a nil error and leaves the store as it was, so that `Children` and `Exists`
answer for every path as before the call, also after two successive calls. -/
theorem CreateSequential_is_noop (zk : Mock) (p v : String) :
    zk.CreateSequential p v = (zk, none) ∧
    ((zk.CreateSequential p v).1.CreateSequential p v).1 = zk ∧
    (∀ q : String, (zk.CreateSequential p v).1.Children q = zk.Children q ∧
      (zk.CreateSequential p v).1.Exists q = zk.Exists q) :=
  ⟨rfl, rfl, fun _ => ⟨rfl, rfl⟩⟩

/-- C12 (ancestor invariant): in the store reached from the empty one by any sequence of
`Set`, `Create`, `CreateSequential`, `Delete` and `NextInt` calls, when a path `q` exists there
is a node at every prefix `segs` of its segments, and every path string with these segments
exists. -/
theorem ancestors_exist (calls : List Call) (q : String) (segs : List String)
    (hpre : segs <+: paths q) (hex : ((NewZooKeeperMock.run calls).Exists q).1 = true) :
    ((NewZooKeeperMock.run calls).root.descend segs).isSome = true ∧
    (∀ a : String, paths a = segs → (NewZooKeeperMock.run calls).Exists a = (true, none)) := by
  have h := MockZnode.descend_isSome_of_prefix _ segs (paths q) hpre
    ((NewZooKeeperMock.run calls).descend_isSome_of_Exists q hex)
  refine ⟨h, fun a ha => ?_⟩
  apply Mock.Exists_of_descend_isSome
  rw [ha]
  exact h

theorem ancestors_exist_witness :
    ["a", "b"] <+: paths "/a/b/c" ∧
    ((NewZooKeeperMock.run
        [Call.Set "/a/b/c/d" "v", Call.Delete "/a/b/c/d", Call.NextInt "/a",
         Call.CreateSequential "/a" "w", Call.Create "/x" "y"]).Exists "/a/b/c").1 = true ∧
    (NewZooKeeperMock.run
        [Call.Set "/a/b/c/d" "v", Call.Delete "/a/b/c/d", Call.NextInt "/a",
         Call.CreateSequential "/a" "w", Call.Create "/x" "y"]).Exists "/a/b" = (true, none) :=
  ⟨by decide, by decide,
   (ancestors_exist
      [Call.Set "/a/b/c/d" "v", Call.Delete "/a/b/c/d", Call.NextInt "/a",
       Call.CreateSequential "/a" "w", Call.Create "/x" "y"] "/a/b/c" ["a", "b"]
      (by decide) (by decide)).2 "/a/b" (by decide)⟩

/-- C13 (pattern matching union): for every list of patterns `GetTopics` returns a nil error
and a list without duplicates whose elements are exactly the topics among `test_topic` and
`test_topic2` that match at least one pattern; reordering the patterns only permutes the
result. -/
theorem GetTopics_union (zk : Mock) (ts : List (String → Bool)) :
    (zk.GetTopics ts).2 = none ∧
    (zk.GetTopics ts).1.Nodup ∧
    (∀ x : String, x ∈ (zk.GetTopics ts).1 ↔
      (x ∈ ["test_topic", "test_topic2"] ∧ ∃ topicRe ∈ ts, topicRe x = true)) ∧
    (∀ ts2 : List (String → Bool), ts.Perm ts2 →
      (zk.GetTopics ts).1.Perm (zk.GetTopics ts2).1) := by
  have hnodup : ∀ l : List (String → Bool), (zk.GetTopics l).1.Nodup := by
    intro l
    unfold Mock.GetTopics
    simp only [List.nil_append]
    exact nodup_mapKeys _
  refine ⟨rfl, hnodup ts, zk.mem_GetTopics ts, ?_⟩
  intro ts2 hperm
  rw [List.perm_ext_iff_of_nodup (hnodup ts) (hnodup ts2)]
  intro x
  rw [zk.mem_GetTopics, zk.mem_GetTopics]
  constructor
  · rintro ⟨h1, r, hr, h2⟩
    exact ⟨h1, r, hperm.mem_iff.1 hr, h2⟩
  · rintro ⟨h1, r, hr, h2⟩
    exact ⟨h1, r, hperm.mem_iff.2 hr, h2⟩

/-- C14 (the root is not deletable): in every store `Delete("/")` leaves the store as it
was, so that for every path `Exists` and `Get` answer as before the call. -/
theorem Delete_root_removes_nothing (zk : Mock) :
    (zk.Delete "/").1 = zk ∧
    (∀ q : String, (zk.Delete "/").1.Exists q = zk.Exists q ∧
      (zk.Delete "/").1.Get q = zk.Get q) := by
  have h : (zk.Delete "/").1 = zk := zk.Delete_fst_single "/" (by decide)
  refine ⟨h, fun q => ?_⟩
  rw [h]
  exact ⟨rfl, rfl⟩

/-- C15 (gauge-name rewriting): for every broker ID, every role among `leader` and `follower`
and every tag list `ts`, `transformFn` applied to the registered gauge name
`broker.<id>.<role>.replication.throttled.rate` and `ts` does not index out of range and
returns the name `autothrottle.<role>.replication.throttled.rate` and the tags `ts` followed
by the single tag `broker_id:<id>`. -/
theorem transformFn_metricName (ID : Int) (role : String) (ts : List String)
    (hrole : role = "leader" ∨ role = "follower") :
    Autothrottle.transformFn (Autothrottle.metricName ID role) ts
      = some ("autothrottle." ++ role ++ ".replication.throttled.rate",
              ts ++ ["broker_id:" ++ Autothrottle.formatInt ID]) := by
  unfold Autothrottle.transformFn
  rw [Autothrottle.SplitN_metricName ID role hrole]
  rcases hrole with rfl | rfl <;> rfl

theorem transformFn_metricName_witness :
    ("leader" = "leader" ∨ "leader" = "follower") ∧
    Autothrottle.transformFn (Autothrottle.metricName 10004 "leader") ["env:test"]
      = some ("autothrottle." ++ "leader" ++ ".replication.throttled.rate",
              ["env:test"] ++ ["broker_id:" ++ Autothrottle.formatInt 10004]) :=
  ⟨Or.inl rfl, transformFn_metricName 10004 "leader" ["env:test"] (Or.inl rfl)⟩

/-- C16 (delete of a nested path): when `p` has at least two segments and exists,
`Delete(p)` returns a nil error, and afterwards `p` does not exist, no path whose segments
start with those of `p` exists, and the parent of `p` still exists. -/
theorem Delete_nested_removes_subtree (zk : Mock) (p : String)
    (h2 : (splitPath p).2 ≠ []) (hex : (zk.Exists p).1 = true) :
    (zk.Delete p).2 = none ∧
    (zk.Delete p).1.Exists p = (false, none) ∧
    (∀ q : String, paths p <+: paths q → (zk.Delete p).1.Exists q = (false, none)) ∧
    ((zk.Delete p).1.root.descend (paths p).dropLast).isSome = true ∧
    (∀ a : String, paths a = (paths p).dropLast → (zk.Delete p).1.Exists a = (true, none)) := by
  obtain ⟨herr, hroot⟩ := zk.Delete_eq_loop p h2
  have hsome := zk.descend_isSome_of_Exists p hex
  have hrm := Delete_loop_removes (1 + ((splitPath p).2.length : Int)) (paths p) (-1)
    zk.root (Mock.Delete_index p) (by simp [paths]) hsome
  have hgone : ∀ q : String, paths p <+: paths q →
      (zk.Delete p).1.Exists q = (false, none) := by
    intro q hq
    apply Mock.Exists_false_of_descend_none
    rw [hroot]
    exact hrm.2 (paths q) hq
  have hnp : ¬ paths p <+: (paths p).dropLast := by
    intro hpre
    have h1 := hpre.length_le
    simp [paths] at h1
  have hpay := Delete_loop_payload (1 + ((splitPath p).2.length : Int)) (paths p) (-1)
    zk.root (Mock.Delete_index p) (paths p).dropLast hnp
  have hparent0 : (zk.root.descend (paths p).dropLast).isSome = true :=
    MockZnode.descend_isSome_of_prefix _ _ (paths p) (List.dropLast_prefix _) hsome
  have hparent : ((zk.Delete p).1.root.descend (paths p).dropLast).isSome = true := by
    rw [hroot]
    cases hd : zk.root.descend (paths p).dropLast with
    | none => rw [hd] at hparent0; exact absurd hparent0 (by simp)
    | some nd =>
      rw [hd] at hpay
      cases hd2 : (Mock.Delete.loop (1 + ((splitPath p).2.length : Int)) (-1) zk.root
          (paths p)).1.descend (paths p).dropLast with
      | none => rw [hd2] at hpay; simp at hpay
      | some nd2 => rfl
  refine ⟨by rw [herr]; exact hrm.1, hgone p (List.prefix_refl _), hgone, hparent, ?_⟩
  intro a ha
  apply Mock.Exists_of_descend_isSome
  rw [ha]
  exact hparent

theorem Delete_nested_removes_subtree_witness :
    (splitPath "/a/b").2 ≠ [] ∧
    ((NewZooKeeperMock.Set "/a/b/c" "v").1.Exists "/a/b").1 = true ∧
    ((NewZooKeeperMock.Set "/a/b/c" "v").1.Delete "/a/b").2 = none ∧
    ((NewZooKeeperMock.Set "/a/b/c" "v").1.Delete "/a/b").1.Exists "/a/b" = (false, none) ∧
    ((NewZooKeeperMock.Set "/a/b/c" "v").1.Delete "/a/b").1.Exists "/a/b/c" = (false, none) ∧
    ((NewZooKeeperMock.Set "/a/b/c" "v").1.Delete "/a/b").1.Exists "/a" = (true, none) :=
  ⟨by decide, by decide,
   (Delete_nested_removes_subtree (NewZooKeeperMock.Set "/a/b/c" "v").1 "/a/b" (by decide)
      (by decide)).1,
   (Delete_nested_removes_subtree (NewZooKeeperMock.Set "/a/b/c" "v").1 "/a/b" (by decide)
      (by decide)).2.1,
   (Delete_nested_removes_subtree (NewZooKeeperMock.Set "/a/b/c" "v").1 "/a/b" (by decide)
      (by decide)).2.2.1 "/a/b/c" (by decide),
   (Delete_nested_removes_subtree (NewZooKeeperMock.Set "/a/b/c" "v").1 "/a/b" (by decide)
      (by decide)).2.2.2.2 "/a" (by decide)⟩

/-- C17 (broker view merged by ID): for every store `GetAllBrokerMeta(true)` does not panic
and returns no error and the six brokers 1001, 1002, 1003, 1004, 1005, 1007 with their racks;
the keys of the map are exactly the IDs of `GetBrokerIDs`, every one of them is present in
the map of `GetBrokerMetrics`, and its `StorageFree` is the one of the same ID there. -/
theorem GetAllBrokerMeta_merged_by_ID (zk : Mock) :
    ∃ b : List (Int × BrokerMeta),
      zk.GetAllBrokerMeta true = some (b, []) ∧
      b = [(1001, ⟨"a", 2000⟩), (1002, ⟨"b", 4000⟩), (1003, ⟨"", 6000⟩),
           (1004, ⟨"a", 8000⟩), (1005, ⟨"b", 10000⟩), (1007, ⟨"", 12000⟩)] ∧
      (∀ id : Int, id ∈ kvKeys b ↔ id ∈ zk.GetBrokerIDs.1) ∧
      (∀ id ∈ zk.GetBrokerIDs.1,
        (kvGet zk.GetBrokerMetrics.1 id).isSome = true ∧
        (kvGet b id).map BrokerMeta.StorageFree
          = (kvGet zk.GetBrokerMetrics.1 id).map BrokerMetrics.StorageFree) := by
  have h : zk.GetAllBrokerMeta true = NewZooKeeperMock.GetAllBrokerMeta true := rfl
  have hm : zk.GetBrokerMetrics = NewZooKeeperMock.GetBrokerMetrics := rfl
  have hi : zk.GetBrokerIDs = NewZooKeeperMock.GetBrokerIDs := rfl
  rw [h, hm, hi]
  refine ⟨_, ?_, rfl, ?_, ?_⟩
  · decide
  · intro id
    have hk : kvKeys [((1001 : Int), (⟨"a", 2000⟩ : BrokerMeta)), (1002, ⟨"b", 4000⟩),
        (1003, ⟨"", 6000⟩), (1004, ⟨"a", 8000⟩), (1005, ⟨"b", 10000⟩), (1007, ⟨"", 12000⟩)]
        = NewZooKeeperMock.GetBrokerIDs.1 := by decide
    rw [hk]
  · decide

/-- C18 (Set touches only its target): when the segments of `p` and `q` differ and `q`
exists, after `Set(p, v)` the path `q` still exists, `Get(q)` returns what it returned
before and the version of the node at `q` is unchanged. -/
theorem Set_keeps_other_nodes (zk : Mock) (p v q : String)
    (hne : paths p ≠ paths q) (hex : (zk.Exists q).1 = true) :
    (zk.Set p v).1.Exists q = (true, none) ∧
    (zk.Set p v).1.Get q = zk.Get q ∧
    (zk.Set p v).1.versionOf q = zk.versionOf q := by
  have hsome := zk.descend_isSome_of_Exists q hex
  cases hd : zk.root.descend (paths q) with
  | none => rw [hd] at hsome; exact absurd hsome (by simp)
  | some nd =>
    have hpay : ((zk.Set p v).1.node q).map MockZnode.payload
        = (zk.node q).map MockZnode.payload := by
      rw [Mock.node_eq_descend, Mock.root_Set, Mock.node_eq_descend,
        descend_Set_loop_payload v (paths p) (paths q) hne zk.root nd hd, hd]
      rfl
    have hobs := Mock.obs_of_value_eq _ _ q (Mock.value_eq_of_payload_eq _ _ q hpay)
    refine ⟨?_, hobs.2, Mock.versionOf_eq_of_payload_eq _ _ q hpay⟩
    rw [hobs.1, Mock.Exists_eq, Mock.node_eq_descend, hd]
    rfl

theorem Set_keeps_other_nodes_witness :
    paths "/a" ≠ paths "/a/b" ∧
    ((NewZooKeeperMock.Set "/a/b" "v").1.Exists "/a/b").1 = true ∧
    (((NewZooKeeperMock.Set "/a/b" "v").1.Set "/a" "w").1.Exists "/a/b" = (true, none) ∧
     ((NewZooKeeperMock.Set "/a/b" "v").1.Set "/a" "w").1.Get "/a/b"
       = (NewZooKeeperMock.Set "/a/b" "v").1.Get "/a/b" ∧
     ((NewZooKeeperMock.Set "/a/b" "v").1.Set "/a" "w").1.versionOf "/a/b"
       = (NewZooKeeperMock.Set "/a/b" "v").1.versionOf "/a/b") :=
  ⟨by decide, by decide,
   Set_keeps_other_nodes (NewZooKeeperMock.Set "/a/b" "v").1 "/a" "w" "/a/b" (by decide)
     (by decide)⟩

/-- C19 (Delete touches only the addressed subtree): when the segments of `p` are not a
prefix of the segments of `q`, `Delete(p)`, whatever it returns, leaves the results of
`Exists(q)` and `Get(q)` as they were. -/
theorem Delete_keeps_other_paths (zk : Mock) (p q : String)
    (h : ¬ paths p <+: paths q) :
    (zk.Delete p).1.Exists q = zk.Exists q ∧ (zk.Delete p).1.Get q = zk.Get q := by
  by_cases h2 : (splitPath p).2 = []
  · rw [zk.Delete_fst_single p h2]
    exact ⟨rfl, rfl⟩
  · obtain ⟨-, hroot⟩ := zk.Delete_eq_loop p h2
    have hpay : ((zk.Delete p).1.node q).map MockZnode.payload
        = (zk.node q).map MockZnode.payload := by
      rw [Mock.node_eq_descend, hroot, Mock.node_eq_descend]
      exact Delete_loop_payload _ (paths p) (-1) zk.root (Mock.Delete_index p) (paths q) h
    exact Mock.obs_of_value_eq _ _ q (Mock.value_eq_of_payload_eq _ _ q hpay)

theorem Delete_keeps_other_paths_witness :
    ¬ paths "/a/b" <+: paths "/a/c" ∧
    (((NewZooKeeperMock.Set "/a/b" "v").1.Set "/a/c" "w").1.Delete "/a/b").1.Exists "/a/c"
      = ((NewZooKeeperMock.Set "/a/b" "v").1.Set "/a/c" "w").1.Exists "/a/c" ∧
    (((NewZooKeeperMock.Set "/a/b" "v").1.Set "/a/c" "w").1.Delete "/a/b").1.Get "/a/c"
      = ((NewZooKeeperMock.Set "/a/b" "v").1.Set "/a/c" "w").1.Get "/a/c" :=
  ⟨by decide,
   Delete_keeps_other_paths ((NewZooKeeperMock.Set "/a/b" "v").1.Set "/a/c" "w").1 "/a/b"
     "/a/c" (by decide)⟩

/-- C20 (NextInt changes only a counter): for all paths `p` and `q`, `NextInt(p)`, whatever
it returns, leaves the results of `Exists(q)` and `Get(q)` as they were; and either it
returns a nil error, or the store is as it was, with the version of every node unchanged. -/
theorem NextInt_changes_only_a_counter (zk : Mock) (p q : String) :
    (zk.NextInt p).1.Exists q = zk.Exists q ∧
    (zk.NextInt p).1.Get q = zk.Get q ∧
    ((zk.NextInt p).2.2 = none ∨
      ((zk.NextInt p).1 = zk ∧ (zk.NextInt p).1.versionOf q = zk.versionOf q)) := by
  have hval : ((zk.NextInt p).1.node q).map MockZnode.value
      = (zk.node q).map MockZnode.value := by
    rw [Mock.node_eq_descend, Mock.root_NextInt, Mock.node_eq_descend]
    exact NextInt_loop_value (paths p) zk.root (paths q)
  have hobs := Mock.obs_of_value_eq _ _ q hval
  refine ⟨hobs.1, hobs.2, ?_⟩
  by_cases he : (zk.NextInt p).2.2 = none
  · exact Or.inl he
  · right
    have hst : (zk.NextInt p).1 = zk := by
      rw [zk.NextInt_of_node_none p (zk.NextInt_error_iff p he)]
    exact ⟨hst, by rw [hst]⟩

end Kafkazk
